import Mathlib

/-!
Shallow embedding of `src/main.py` (Pilot1782/notion_daemon), a one-shot
Canvas→Notion assignment sync script, together with proofs about its
behaviour.

Modelling conventions:
* Instants are `Int` seconds since the epoch (the script compares
  timezone-aware `datetime`s; 7 days = 604800 s, 30 min = 1800 s).
* The Notion and Canvas clients are external dependencies; their calls are
  reflected as `Event`s in a trace and their behaviour is supplied as
  parameters (`q` for `notion.data_sources.query`, `createOk` for whether
  `notion.pages.create` raises, `parseIso` for `datetime.fromisoformat`).
* An uncaught Python exception is modelled by the run returning
  `some (e : RunErr)`; the trace holds the events that happened before it.
* The `while True` paging loop of `fetch_existing_canvas_ids` is given a
  fuel parameter so the model stays structurally recursive; exhausting the
  fuel is a model artifact (`RunErr.fuelExhausted`), never relied on.
-/

/-- A Canvas course as consumed by the script: `course.id`, `course.name`. -/
structure Course where
  id : Nat
  name : String
deriving DecidableEq

/-- A Canvas assignment as consumed by the script: `assignment.id`,
`assignment.name`, `assignment.due_at` (optional ISO-8601 string, possibly
empty), `assignment.html_url`. -/
structure Assignment where
  id : Nat
  name : String
  due_at : Option String
  html_url : String
deriving DecidableEq

/-- Result of `datetime.fromisoformat`: the instant (as UTC seconds) and
whether the parsed datetime carries a timezone offset (aware) or not. -/
structure DT where
  utc : Int
  aware : Bool
deriving DecidableEq

/-- A Notion page as returned by `notion.data_sources.query`: its
`properties` map, with each rich-text property rendered as the list of its
text-runs' `plain_text` values.  Only the `"Canvas ID"` property is read. -/
structure NPage where
  properties : List (String × List String)
deriving DecidableEq

/-- A `notion.data_sources.query` response: `results`, `has_more`,
`next_cursor`. -/
structure QueryResp where
  results : List NPage
  has_more : Bool
  next_cursor : Option Nat
deriving DecidableEq

/-- The properties of the Notion page built by `notion.pages.create`
(lines 184-204 of `main.py`): Name title, Date start/end, Class select,
Ref url, Status, and the Canvas ID rich text used as the dedup key. -/
structure DestinationRecord where
  name : String
  dateStart : Int
  dateEnd : Int
  classSelect : String
  ref : String
  status : String
  canvasId : String
deriving DecidableEq

/-- Externally visible calls made by the script, in order. -/
inductive Event where
  | queryNotion
  | getCourses
  | getAssignments (courseId : Nat)
  | createCall (rec : DestinationRecord)
  | createSuccess (canvasId : String)
  | createFailure (canvasId : String)
deriving DecidableEq

/-- An exception that propagates uncaught and terminates the run. -/
inductive RunErr where
  | queryFailed
  | parseError (s : String)
  | compareTypeError
  | fuelExhausted
deriving DecidableEq

/-- Run parameters: the `name_map` configuration, the behaviour of
`datetime.fromisoformat`, the current instant `now`, and whether a
`notion.pages.create` call for a given Canvas id succeeds. -/
structure SyncCtx where
  name_map : List (String × String)
  parseIso : String → Option DT
  now : Int
  createOk : String → Bool

/-- The Canvas side of a run: the active-enrollment courses and, per course
id, the `bucket="upcoming"` assignments returned by `get_assignments`. -/
structure RunInput where
  courses : List Course
  assignmentsOf : Nat → List Assignment

/-- `week_out = now + timedelta(days=7)` (line 108), in seconds. -/
def week_out (now : Int) : Int := now + 7 * 86400

/-- The window filter of line 157: `now <= due_at <= week_out`. -/
def inWindow (now due : Int) : Bool :=
  decide (now ≤ due) && decide (due ≤ week_out now)

/-- Python `str.replace("Z", "+00:00")` on the character list: the pattern
is a single character, so every `'Z'` is expanded to `+00:00`. -/
def expandZ : List Char → List Char
  | [] => []
  | c :: cs =>
      (if c = 'Z' then '+' :: '0' :: '0' :: ':' :: '0' :: '0' :: [] else [c])
        ++ expandZ cs

/-- `assignment.due_at.replace("Z", "+00:00")` (line 152). -/
def replaceZ (s : String) : String := String.mk (expandZ s.data)

/-- `end_at = due_at + timedelta(minutes=30)` (line 176), in seconds. -/
def end_at (due : Int) : Int := due + 30 * 60

/-- The page built and submitted by `notion.pages.create` (lines 185-204). -/
def buildRecord (a : Assignment) (class_select : String) (due : Int)
    (canvas_id : String) : DestinationRecord :=
  { name := a.name
    dateStart := due
    dateEnd := end_at due
    classSelect := class_select
    ref := a.html_url
    status := "Not started"
    canvasId := canvas_id }

/-- Lines 164-219: compute `canvas_id`, skip when it is already in
`existing_canvas_ids`, otherwise issue the create call; on success add the
id to the set, on failure log and continue. -/
def syncDecision (ctx : SyncCtx) (class_select : String)
    (existing_canvas_ids : List String) (a : Assignment) (due : Int) :
    List Event × List String × Option RunErr :=
  let canvas_id := toString a.id
  if canvas_id ∈ existing_canvas_ids then
    ([], existing_canvas_ids, none)
  else
    let rec_ := buildRecord a class_select due canvas_id
    if ctx.createOk canvas_id then
      ([Event.createCall rec_, Event.createSuccess canvas_id],
        existing_canvas_ids.insert canvas_id, none)
    else
      ([Event.createCall rec_, Event.createFailure canvas_id],
        existing_canvas_ids, none)

/-- Lines 147-219, one iteration of the assignment loop: skip when
`due_at` is falsy, parse with the `Z` suffix normalised (an unparseable
string raises uncaught), compare against the window (a naive datetime
makes `now <= due_at` raise uncaught), then dedup and create. -/
def processAssignment (ctx : SyncCtx) (class_select : String)
    (existing_canvas_ids : List String) (a : Assignment) :
    List Event × List String × Option RunErr :=
  match a.due_at with
  | none => ([], existing_canvas_ids, none)
  | some s =>
    if s = "" then ([], existing_canvas_ids, none)
    else
      match ctx.parseIso (replaceZ s) with
      | none => ([], existing_canvas_ids, some (RunErr.parseError (replaceZ s)))
      | some due_at =>
        if due_at.aware = false then
          ([], existing_canvas_ids, some RunErr.compareTypeError)
        else if inWindow ctx.now due_at.utc = false then
          ([], existing_canvas_ids, none)
        else
          syncDecision ctx class_select existing_canvas_ids a due_at.utc

/-- The assignment loop of lines 139-219; an uncaught exception stops the
whole run, so processing ends at the first `some` error. -/
def processAssignments (ctx : SyncCtx) (class_select : String) :
    List String → List Assignment → List Event × List String × Option RunErr
  | existing_canvas_ids, [] => ([], existing_canvas_ids, none)
  | existing_canvas_ids, a :: rest =>
    match processAssignment ctx class_select existing_canvas_ids a with
    | (evs, ids', none) =>
      let r := processAssignments ctx class_select ids' rest
      (evs ++ r.1, r.2.1, r.2.2)
    | (evs, ids', some e) => (evs, ids', some e)

/-- Lines 122-225, one iteration of the course loop: skip (without calling
`get_assignments`) when the course name is not in `name_map`, otherwise
fetch the upcoming assignments and process them. -/
def processCourse (ctx : SyncCtx) (inp : RunInput)
    (existing_canvas_ids : List String) (c : Course) :
    List Event × List String × Option RunErr :=
  match ctx.name_map.lookup c.name with
  | none => ([], existing_canvas_ids, none)
  | some class_select =>
    let r := processAssignments ctx class_select existing_canvas_ids
      (inp.assignmentsOf c.id)
    (Event.getAssignments c.id :: r.1, r.2.1, r.2.2)

/-- The course loop of lines 122-225. -/
def processCourses (ctx : SyncCtx) (inp : RunInput) :
    List String → List Course → List Event × List String × Option RunErr
  | existing_canvas_ids, [] => ([], existing_canvas_ids, none)
  | existing_canvas_ids, c :: rest =>
    match processCourse ctx inp existing_canvas_ids c with
    | (evs, ids', none) =>
      let r := processCourses ctx inp ids' rest
      (evs ++ r.1, r.2.1, r.2.2)
    | (evs, ids', some e) => (evs, ids', some e)

/-- Lines 86-90: read the optional `"Canvas ID"` property of a returned
page; when present with a non-empty `rich_text` array, its first text-run's
`plain_text`. -/
def extractCanvasId (page : NPage) : Option String :=
  match page.properties.lookup "Canvas ID" with
  | none => none
  | some rich_text => rich_text.head?

/-- Lines 85-90: add each result's Canvas id (when present) to `ids`. -/
def addPageIds (ids : List String) (results : List NPage) : List String :=
  results.foldl
    (fun acc page =>
      match extractCanvasId page with
      | some cur_canvas_id => acc.insert cur_canvas_id
      | none => acc)
    ids

/-- Outcome of the baseline load. -/
inductive FetchResult where
  | ok (ids : List String)
  | err
  | fuelOut
deriving DecidableEq

/-- The `while True` loop of `fetch_existing_canvas_ids` (lines 72-96):
query with `page_size=100`, collect ids, stop when `has_more` is falsy,
otherwise follow `next_cursor`.  A raising query propagates (`err`).
`fuel` bounds the number of iterations of the model. -/
def fetchLoop (q : Option Nat → Except Unit QueryResp) :
    Nat → Option Nat → List String → List Event × FetchResult
  | 0, _, _ => ([], FetchResult.fuelOut)
  | fuel + 1, cursor, ids =>
    match q cursor with
    | Except.error _ => ([Event.queryNotion], FetchResult.err)
    | Except.ok resp =>
      let ids' := addPageIds ids resp.results
      if resp.has_more then
        let r := fetchLoop q fuel resp.next_cursor ids'
        (Event.queryNotion :: r.1, r.2)
      else
        ([Event.queryNotion], FetchResult.ok ids')

/-- `fetch_existing_canvas_ids` (lines 65-99): run the paging loop from a
`None` start cursor and an empty id set. -/
def fetch_existing_canvas_ids (q : Option Nat → Except Unit QueryResp)
    (fuel : Nat) : List Event × FetchResult :=
  fetchLoop q fuel none []

/-- The whole script after configuration (lines 102-227): load the
baseline (an exception there aborts the run before `get_courses`), then
enumerate courses and sync. -/
def runSync (ctx : SyncCtx) (q : Option Nat → Except Unit QueryResp)
    (fuel : Nat) (inp : RunInput) : List Event × Option RunErr :=
  match fetch_existing_canvas_ids q fuel with
  | (qEvents, FetchResult.fuelOut) => (qEvents, some RunErr.fuelExhausted)
  | (qEvents, FetchResult.err) => (qEvents, some RunErr.queryFailed)
  | (qEvents, FetchResult.ok existing_canvas_ids) =>
    let r := processCourses ctx inp existing_canvas_ids inp.courses
    (qEvents ++ Event.getCourses :: r.1, r.2.2)

/-- A well-behaved Notion store over a fixed list of pages: a query at
cursor `c` returns the next 100 pages, `has_more` iff pages remain, and a
`next_cursor` 100 further on.  (`start_cursor=None` means the beginning.) -/
def queryStore (store : List NPage) (cursor : Option Nat) :
    Except Unit QueryResp :=
  let c := cursor.getD 0
  Except.ok
    { results := (store.drop c).take 100
      has_more := decide (c + 100 < store.length)
      next_cursor := some (c + 100) }

/-- Number of `createSuccess` events for id `x` (records actually created
for `x`) in a trace. -/
def countSucc (evs : List Event) (x : String) : Nat :=
  evs.countP fun e =>
    match e with
    | Event.createSuccess cid => cid == x
    | _ => false

/-- Number of `createCall` events for id `x` (create calls issued for `x`)
in a trace. -/
def countCall (evs : List Event) (x : String) : Nat :=
  evs.countP fun e =>
    match e with
    | Event.createCall r => r.canvasId == x
    | _ => false

/-- Number of query calls the paging loop makes over a store of `len`
pages starting at cursor `c`. -/
def nQueryCalls (len c : Nat) : Nat := (len - c - 1) / 100 + 1

/-! ### Concrete fixtures (used by witnesses and counterexamples) -/

/-- A concrete stand-in for `datetime.fromisoformat`: knows one aware
instant, one naive instant, and rejects everything else. -/
def parseW : String → Option DT := fun s =>
  if s = "2025-01-01T00:00:00+00:00" then some (DT.mk 100 true)
  else if s = "2025-01-01T00:00:00" then some (DT.mk 100 false)
  else none

/-- A context whose create calls all succeed. -/
def ctxW : SyncCtx := ⟨[("Math 101", "Math")], parseW, 0, fun _ => true⟩

/-- A context whose create calls all fail. -/
def ctxFailAll : SyncCtx := ⟨[("Math 101", "Math")], parseW, 0, fun _ => false⟩

/-- A context whose create call fails exactly for Canvas id `"8"`. -/
def ctxFail8 : SyncCtx :=
  ⟨[("Math 101", "Math")], parseW, 0, fun cid => !(cid == "8")⟩

/-- An eligible assignment: due in window, `Z`-suffixed due string. -/
def aW : Assignment := ⟨7, "HW 1", some "2025-01-01T00:00:00Z", "http://x"⟩

/-- A second eligible assignment with a distinct id. -/
def a8 : Assignment := ⟨8, "HW 2", some "2025-01-01T00:00:00Z", "http://y"⟩

/-- A third eligible assignment with a distinct id. -/
def a9 : Assignment := ⟨9, "HW 3", some "2025-01-01T00:00:00Z", "http://z"⟩

/-- An assignment whose due string `fromisoformat` rejects. -/
def aBad : Assignment := ⟨5, "Bad", some "garbage", "http://b"⟩

/-- An assignment whose due string parses to a naive (offset-less)
datetime. -/
def aNaive : Assignment := ⟨5, "Naive", some "2025-01-01T00:00:00", "http://n"⟩

/-- The one mapped course of the fixtures. -/
def mathCourse : Course := ⟨1, "Math 101"⟩

/-- One course, one eligible assignment. -/
def inpW : RunInput := ⟨[mathCourse], fun _ => [aW]⟩

/-- One course yielding the same assignment twice. -/
def inpDup : RunInput := ⟨[mathCourse], fun _ => [aW, aW]⟩

/-- One course: an unparseable assignment followed by an eligible one. -/
def inp10 : RunInput := ⟨[mathCourse], fun _ => [aBad, aW]⟩

/-- One course: a naive-datetime assignment followed by an eligible one. -/
def inp10b : RunInput := ⟨[mathCourse], fun _ => [aNaive, aW]⟩

/-- An empty destination store. -/
def store0 : List NPage := []

/-- A destination store already holding Canvas id `"7"`. -/
def store7 : List NPage := [⟨[("Canvas ID", ["7"])]⟩]

/-- A destination store of 250 pages with distinct Canvas ids. -/
def bigStore : List NPage :=
  (List.range 250).map fun i => ⟨[("Canvas ID", [toString i])]⟩

/-- A Notion query endpoint whose every call raises. -/
def qErr : Option Nat → Except Unit QueryResp := fun _ => Except.error ()

/-! ### Helper lemmas -/

theorem inWindow_iff (T d : Int) :
    inWindow T d = true ↔ T ≤ d ∧ d ≤ T + 604800 := by
  simp only [inWindow, week_out, Bool.and_eq_true, decide_eq_true_eq]
  omega

theorem expandZ_append (l₁ l₂ : List Char) :
    expandZ (l₁ ++ l₂) = expandZ l₁ ++ expandZ l₂ := by
  induction l₁ with
  | nil => rfl
  | cons c cs ih => simp [expandZ, ih]

theorem expandZ_of_not_mem (l : List Char) (h : 'Z' ∉ l) : expandZ l = l := by
  induction l with
  | nil => rfl
  | cons c cs ih =>
    simp only [List.mem_cons, not_or] at h
    have hc : ¬c = 'Z' := fun hh => h.1 hh.symm
    simp [expandZ, hc, ih h.2]

theorem replaceZ_suffix (t : String) (h : 'Z' ∉ t.data) :
    replaceZ (t ++ "Z") = t ++ "+00:00" := by
  apply String.ext
  simp only [replaceZ, String.data_append t "Z"]
  rw [expandZ_append, expandZ_of_not_mem t.data h]
  rfl

theorem replaceZ_of_not_mem (t : String) (h : 'Z' ∉ t.data) :
    replaceZ t = t := by
  apply String.ext
  simp only [replaceZ]
  exact expandZ_of_not_mem t.data h

theorem append_ne_empty_of_ne (t u : String) (hu : u.data ≠ []) :
    t ++ u ≠ "" := by
  intro h
  have hd := congrArg String.data h
  rw [String.data_append] at hd
  rcases List.append_eq_nil.mp hd with ⟨-, h2⟩
  exact hu h2

theorem processAssignment_parsed (ctx : SyncCtx) (cs : String)
    (ids : List String) (a : Assignment) (s : String) (dt : DT)
    (hs : a.due_at = some s) (hne : s ≠ "")
    (hp : ctx.parseIso (replaceZ s) = some dt) (hw : dt.aware = true) :
    processAssignment ctx cs ids a =
      if inWindow ctx.now dt.utc = false then ([], ids, none)
      else syncDecision ctx cs ids a dt.utc := by
  simp [processAssignment, hs, hne, hp, hw]

/-- C2: the filter window is inclusive at both ends.  An assignment whose
due string parses to an aware instant `d` proceeds past the window filter
(to the dedup/create stage) iff `T ≤ d ≤ T + 7 days` where `T` is the
run's `now`; it is skipped otherwise.  In particular `d = T` and
`d = T + 604800 s` are included while `d = T - 1 s` and `d = T + 604801 s`
are excluded. -/
theorem c2_window_inclusive :
    (∀ (ctx : SyncCtx) (cs : String) (ids : List String) (a : Assignment)
        (s : String) (dt : DT),
      a.due_at = some s → s ≠ "" →
      ctx.parseIso (replaceZ s) = some dt → dt.aware = true →
      ((ctx.now ≤ dt.utc ∧ dt.utc ≤ ctx.now + 604800 →
          processAssignment ctx cs ids a = syncDecision ctx cs ids a dt.utc) ∧
        (¬(ctx.now ≤ dt.utc ∧ dt.utc ≤ ctx.now + 604800) →
          processAssignment ctx cs ids a = ([], ids, none)))) ∧
    (∀ T : Int, inWindow T T = true ∧ inWindow T (T + 604800) = true ∧
      inWindow T (T - 1) = false ∧ inWindow T (T + 604801) = false) := by
  constructor
  · intro ctx cs ids a s dt hs hne hp hw
    rw [processAssignment_parsed ctx cs ids a s dt hs hne hp hw]
    constructor
    · intro hin
      have ht : inWindow ctx.now dt.utc = true := (inWindow_iff _ _).mpr hin
      simp [ht]
    · intro hout
      have hf : inWindow ctx.now dt.utc = false := by
        cases hb : inWindow ctx.now dt.utc
        · rfl
        · exact absurd ((inWindow_iff _ _).mp hb) hout
      simp [hf]
  · intro T
    refine ⟨(inWindow_iff T T).mpr (by omega),
      (inWindow_iff T (T + 604800)).mpr (by omega), ?_, ?_⟩
    · rw [Bool.eq_false_iff]
      intro hb
      have := (inWindow_iff T (T - 1)).mp hb
      omega
    · rw [Bool.eq_false_iff]
      intro hb
      have := (inWindow_iff T (T + 604801)).mp hb
      omega

/-- Witness for C2 at a concrete input: the fixture assignment `aW`
(due instant 100, `now = 0`) proceeds to the dedup/create stage, and the
boundary facts at `T = 0`. -/
theorem c2_window_inclusive_witness :
    processAssignment ctxW "Math" [] aW = syncDecision ctxW "Math" [] aW 100 ∧
    (inWindow 0 0 = true ∧ inWindow 0 604800 = true ∧
      inWindow 0 (0 - 1) = false ∧ inWindow 0 604801 = false) := by
  constructor
  · exact (c2_window_inclusive.1 ctxW "Math" [] aW "2025-01-01T00:00:00Z"
      (DT.mk 100 true) rfl (by decide) (by decide) rfl).1 (by decide)
  · exact c2_window_inclusive.2 0

/-- C8: an assignment whose `due_at` is absent or empty is skipped with no
create call and no state change; otherwise a literal `Z` suffix of the due
string is replaced by `+00:00` before parsing, so processing a
`Z`-suffixed due string behaves exactly like processing the same string
with an explicit `+00:00` offset. -/
theorem c8_due_date_handling :
    (∀ (ctx : SyncCtx) (cs : String) (ids : List String) (a : Assignment),
      (a.due_at = none ∨ a.due_at = some "") →
      processAssignment ctx cs ids a = ([], ids, none)) ∧
    (∀ t : String, 'Z' ∉ t.data →
      replaceZ (t ++ "Z") = t ++ "+00:00" ∧
      ∀ (ctx : SyncCtx) (cs : String) (ids : List String) (a : Assignment),
        a.due_at = some (t ++ "Z") →
        processAssignment ctx cs ids a =
          processAssignment ctx cs ids
            { a with due_at := some (t ++ "+00:00") }) := by
  constructor
  · intro ctx cs ids a h
    rcases h with h | h <;> simp [processAssignment, h]
  · intro t ht
    have hrz : replaceZ (t ++ "Z") = t ++ "+00:00" := replaceZ_suffix t ht
    have hrz2 : replaceZ (t ++ "+00:00") = t ++ "+00:00" := by
      apply replaceZ_of_not_mem
      rw [String.data_append]
      intro hmem
      rcases List.mem_append.mp hmem with h | h
      · exact ht h
      · exact absurd h (by decide)
    refine ⟨hrz, ?_⟩
    intro ctx cs ids a ha
    obtain ⟨aid, aname, adue, aurl⟩ := a
    simp only at ha
    subst ha
    have hne1 : ¬(t ++ "Z" = "") := append_ne_empty_of_ne t "Z" (by decide)
    have hne2 : ¬(t ++ "+00:00" = "") :=
      append_ne_empty_of_ne t "+00:00" (by decide)
    simp only [processAssignment, if_neg hne1, if_neg hne2, hrz, hrz2]
    cases ctx.parseIso (t ++ "+00:00") with
    | none => rfl
    | some d => rfl

/-- Witness for C8 at concrete inputs: a due-date-less assignment is
skipped, and the fixture assignment `aW` (due string with `Z` suffix)
behaves like its `+00:00` twin. -/
theorem c8_due_date_handling_witness :
    processAssignment ctxW "Math" [] (Assignment.mk 7 "HW 1" none "u") =
      ([], [], none) ∧
    replaceZ ("2025-01-01T00:00:00" ++ "Z") =
      "2025-01-01T00:00:00" ++ "+00:00" ∧
    processAssignment ctxW "Math" [] aW =
      processAssignment ctxW "Math" []
        { aW with due_at := some ("2025-01-01T00:00:00" ++ "+00:00") } := by
  have h2 := c8_due_date_handling.2 "2025-01-01T00:00:00" (by decide)
  exact ⟨c8_due_date_handling.1 ctxW "Math" []
      (Assignment.mk 7 "HW 1" none "u") (Or.inl rfl),
    h2.1, h2.2 ctxW "Math" [] aW (by decide)⟩

/-- C10: due-date parsing and the window comparison sit outside the
per-item try/except.  Concretely: with course `mathCourse` yielding an
unparseable-due assignment (`aBad`) followed by an eligible one (`aW`),
the run aborts with an uncaught error and never reaches the eligible
assignment (no create call in the trace); likewise when the due string
parses to a naive, offset-less datetime (`aNaive`), the window comparison
raises and the run aborts. -/
theorem c10_parse_outside_handler :
    runSync ctxW (queryStore store0) 2 inp10 =
      ([Event.queryNotion, Event.getCourses, Event.getAssignments 1],
        some (RunErr.parseError "garbage")) ∧
    runSync ctxW (queryStore store0) 2 inp10b =
      ([Event.queryNotion, Event.getCourses, Event.getAssignments 1],
        some RunErr.compareTypeError) := by
  constructor
  · rfl
  · rfl

theorem processAssignments_cons_none {ctx : SyncCtx} {cs : String}
    {ids ids' : List String} {a : Assignment} {l : List Assignment}
    {evs : List Event}
    (h : processAssignment ctx cs ids a = (evs, ids', none)) :
    processAssignments ctx cs ids (a :: l) =
      (evs ++ (processAssignments ctx cs ids' l).1,
        (processAssignments ctx cs ids' l).2.1,
        (processAssignments ctx cs ids' l).2.2) := by
  simp [processAssignments, h]

theorem processAssignments_cons_some {ctx : SyncCtx} {cs : String}
    {ids ids' : List String} {a : Assignment} {l : List Assignment}
    {evs : List Event} {e : RunErr}
    (h : processAssignment ctx cs ids a = (evs, ids', some e)) :
    processAssignments ctx cs ids (a :: l) = (evs, ids', some e) := by
  simp [processAssignments, h]

theorem processCourses_cons_none {ctx : SyncCtx} {inp : RunInput}
    {ids ids' : List String} {c : Course} {l : List Course}
    {evs : List Event}
    (h : processCourse ctx inp ids c = (evs, ids', none)) :
    processCourses ctx inp ids (c :: l) =
      (evs ++ (processCourses ctx inp ids' l).1,
        (processCourses ctx inp ids' l).2.1,
        (processCourses ctx inp ids' l).2.2) := by
  simp [processCourses, h]

theorem processCourses_cons_some {ctx : SyncCtx} {inp : RunInput}
    {ids ids' : List String} {c : Course} {l : List Course}
    {evs : List Event} {e : RunErr}
    (h : processCourse ctx inp ids c = (evs, ids', some e)) :
    processCourses ctx inp ids (c :: l) = (evs, ids', some e) := by
  simp [processCourses, h]

/-- C6: mapping exclusivity.  A course whose name is absent from
`name_map` is skipped entirely: no `get_assignments` call, no create call,
no event at all and no state change; consequently removing it from the
course list leaves the whole run unchanged, regardless of its
assignments' due dates. -/
theorem c6_mapping_exclusivity :
    ∀ (ctx : SyncCtx) (inp : RunInput) (ids : List String) (c : Course),
      ctx.name_map.lookup c.name = none →
      processCourse ctx inp ids c = ([], ids, none) ∧
      ∀ pre post, processCourses ctx inp ids (pre ++ c :: post) =
        processCourses ctx inp ids (pre ++ post) := by
  intro ctx inp ids c h
  have hskip : ∀ ids2 : List String,
      processCourse ctx inp ids2 c = ([], ids2, none) := by
    intro ids2
    simp [processCourse, h]
  refine ⟨hskip ids, ?_⟩
  intro pre
  induction pre generalizing ids with
  | nil =>
    intro post
    rw [List.nil_append, List.nil_append,
      processCourses_cons_none (hskip ids)]
    simp
  | cons c' pre ih =>
    intro post
    rcases hc : processCourse ctx inp ids c' with ⟨evs, ids', err⟩
    cases err with
    | none =>
      rw [List.cons_append, List.cons_append,
        processCourses_cons_none hc, processCourses_cons_none hc, ih ids']
    | some e =>
      rw [List.cons_append, List.cons_append,
        processCourses_cons_some hc, processCourses_cons_some hc]

/-- Witness for C6 at a concrete input: the unmapped course `History`
contributes nothing, and dropping it from a run alongside `mathCourse`
leaves the run unchanged. -/
theorem c6_mapping_exclusivity_witness :
    processCourse ctxW inpW [] (Course.mk 2 "History") = ([], [], none) ∧
    processCourses ctxW inpW [] ([mathCourse] ++ Course.mk 2 "History" :: []) =
      processCourses ctxW inpW [] ([mathCourse] ++ []) := by
  have h := c6_mapping_exclusivity ctxW inpW [] (Course.mk 2 "History")
    (by decide)
  exact ⟨h.1, h.2 [mathCourse] []⟩

/-- C9: a failed create is atomic for the dedup set.  When the create call
for an eligible assignment with id `X` fails, the trace records the call
and the failure but `existing_canvas_ids` is returned unchanged (`X` is
not added); consequently, when the very same assignment is encountered
again later in the run, a second create call for `X` is issued. -/
theorem c9_failed_create_atomic :
    ∀ (ctx : SyncCtx) (cs : String) (ids : List String) (a : Assignment)
      (s : String) (dt : DT),
      a.due_at = some s → s ≠ "" →
      ctx.parseIso (replaceZ s) = some dt → dt.aware = true →
      inWindow ctx.now dt.utc = true →
      toString a.id ∉ ids →
      ctx.createOk (toString a.id) = false →
      processAssignment ctx cs ids a =
        ([Event.createCall (buildRecord a cs dt.utc (toString a.id)),
          Event.createFailure (toString a.id)], ids, none) ∧
      processAssignments ctx cs ids [a, a] =
        ([Event.createCall (buildRecord a cs dt.utc (toString a.id)),
          Event.createFailure (toString a.id),
          Event.createCall (buildRecord a cs dt.utc (toString a.id)),
          Event.createFailure (toString a.id)], ids, none) := by
  intro ctx cs ids a s dt hs hne hp hw hin hnm hok
  have h1 : processAssignment ctx cs ids a =
      ([Event.createCall (buildRecord a cs dt.utc (toString a.id)),
        Event.createFailure (toString a.id)], ids, none) := by
    rw [processAssignment_parsed ctx cs ids a s dt hs hne hp hw, hin]
    simp [syncDecision, hnm, hok]
  refine ⟨h1, ?_⟩
  rw [processAssignments_cons_none h1, processAssignments_cons_none h1]
  simp [processAssignments]

/-- Witness for C9 at a concrete input: with the always-failing create
oracle, processing `aW` twice issues two create calls for id `"7"` and
leaves the id set empty. -/
theorem c9_failed_create_atomic_witness :
    processAssignment ctxFailAll "Math" [] aW =
      ([Event.createCall (buildRecord aW "Math" 100 (toString aW.id)),
        Event.createFailure (toString aW.id)], [], none) ∧
    processAssignments ctxFailAll "Math" [] [aW, aW] =
      ([Event.createCall (buildRecord aW "Math" 100 (toString aW.id)),
        Event.createFailure (toString aW.id),
        Event.createCall (buildRecord aW "Math" 100 (toString aW.id)),
        Event.createFailure (toString aW.id)], [], none) :=
  c9_failed_create_atomic ctxFailAll "Math" [] aW "2025-01-01T00:00:00Z"
    (DT.mk 100 true) rfl (by decide) (by decide) rfl (by decide)
    (by decide) rfl

theorem fetchLoop_events (q : Option Nat → Except Unit QueryResp) :
    ∀ (fuel : Nat) (cur : Option Nat) (ids : List String),
      ∀ e ∈ (fetchLoop q fuel cur ids).1, e = Event.queryNotion := by
  intro fuel
  induction fuel with
  | zero =>
    intro cur ids e he
    simp [fetchLoop] at he
  | succ n ih =>
    intro cur ids e he
    simp only [fetchLoop] at he
    rcases hq : q cur with u | resp
    · rw [hq] at he
      simp at he
      simp [he]
    · rw [hq] at he
      cases hm : resp.has_more with
      | true =>
        simp only [hm, if_true] at he
        simp only [List.mem_cons] at he
        rcases he with he | he
        · exact he
        · exact ih resp.next_cursor (addPageIds ids resp.results) e he
      | false =>
        simp only [hm, if_false] at he
        simp at he
        simp [he]

/-- C7: a failure while loading the existing-id baseline is fatal.  If
`fetch_existing_canvas_ids` propagates a query exception, the run
terminates with that error, its trace is exactly the query calls made so
far — no `get_courses`, no `get_assignments` and no create call ever
happens — so the pass never runs on partial dedup data. -/
theorem c7_baseline_failure_fatal :
    ∀ (ctx : SyncCtx) (q : Option Nat → Except Unit QueryResp) (fuel : Nat)
      (inp : RunInput) (evs : List Event),
      fetch_existing_canvas_ids q fuel = (evs, FetchResult.err) →
      runSync ctx q fuel inp = (evs, some RunErr.queryFailed) ∧
      ∀ e ∈ evs, e = Event.queryNotion := by
  intro ctx q fuel inp evs h
  constructor
  · simp [runSync, h]
  · have h1 : (fetchLoop q fuel none []).1 = evs := by
      have h2 : fetchLoop q fuel none [] = (evs, FetchResult.err) := h
      rw [h2]
    intro e he
    exact fetchLoop_events q fuel none [] e (by rw [h1]; exact he)

/-- Witness for C7 at a concrete input: with the always-raising query
endpoint `qErr`, the run aborts after the single query call. -/
theorem c7_baseline_failure_fatal_witness :
    runSync ctxW qErr 1 inpW = ([Event.queryNotion], some RunErr.queryFailed) ∧
    ∀ e ∈ [Event.queryNotion], e = Event.queryNotion :=
  c7_baseline_failure_fatal ctxW qErr 1 inpW [Event.queryNotion] rfl

theorem processAssignment_ok (ctx : SyncCtx) (cs : String)
    (ids : List String) (a : Assignment) (s : String) (dt : DT)
    (hs : a.due_at = some s) (hne : s ≠ "")
    (hp : ctx.parseIso (replaceZ s) = some dt) (hw : dt.aware = true)
    (hin : inWindow ctx.now dt.utc = true)
    (hnm : toString a.id ∉ ids)
    (hok : ctx.createOk (toString a.id) = true) :
    processAssignment ctx cs ids a =
      ([Event.createCall (buildRecord a cs dt.utc (toString a.id)),
        Event.createSuccess (toString a.id)],
        ids.insert (toString a.id), none) := by
  rw [processAssignment_parsed ctx cs ids a s dt hs hne hp hw, hin]
  simp [syncDecision, hnm, hok]

theorem processAssignment_fail (ctx : SyncCtx) (cs : String)
    (ids : List String) (a : Assignment) (s : String) (dt : DT)
    (hs : a.due_at = some s) (hne : s ≠ "")
    (hp : ctx.parseIso (replaceZ s) = some dt) (hw : dt.aware = true)
    (hin : inWindow ctx.now dt.utc = true)
    (hnm : toString a.id ∉ ids)
    (hok : ctx.createOk (toString a.id) = false) :
    processAssignment ctx cs ids a =
      ([Event.createCall (buildRecord a cs dt.utc (toString a.id)),
        Event.createFailure (toString a.id)], ids, none) := by
  rw [processAssignment_parsed ctx cs ids a s dt hs hne hp hw, hin]
  simp [syncDecision, hnm, hok]

theorem processAssignment_dup (ctx : SyncCtx) (cs : String)
    (ids : List String) (a : Assignment) (s : String) (dt : DT)
    (hs : a.due_at = some s) (hne : s ≠ "")
    (hp : ctx.parseIso (replaceZ s) = some dt) (hw : dt.aware = true)
    (hin : inWindow ctx.now dt.utc = true)
    (hm : toString a.id ∈ ids) :
    processAssignment ctx cs ids a = ([], ids, none) := by
  rw [processAssignment_parsed ctx cs ids a s dt hs hne hp hw, hin]
  simp [syncDecision, hm]

/-- C3: per-item failure isolation.  For any list of eligible assignments
with distinct, not-yet-synced ids, the run never aborts (no uncaught
error), a create call is issued for every assignment whatever the create
oracle does, and each assignment ends as created or as a logged failure —
so a failing create for one assignment prevents neither earlier nor later
creates. -/
theorem c3_failure_isolation :
    ∀ (ctx : SyncCtx) (cs : String) (ids : List String) (l : List Assignment),
      (∀ a ∈ l, ∃ s dt, a.due_at = some s ∧ s ≠ "" ∧
        ctx.parseIso (replaceZ s) = some dt ∧ dt.aware = true ∧
        inWindow ctx.now dt.utc = true) →
      ((l.map fun a => toString a.id).Nodup) →
      (∀ a ∈ l, toString a.id ∉ ids) →
      (processAssignments ctx cs ids l).2.2 = none ∧
      ∀ a ∈ l,
        (∃ r, Event.createCall r ∈ (processAssignments ctx cs ids l).1 ∧
          r.canvasId = toString a.id) ∧
        (ctx.createOk (toString a.id) = true →
          Event.createSuccess (toString a.id) ∈
            (processAssignments ctx cs ids l).1) ∧
        (ctx.createOk (toString a.id) = false →
          Event.createFailure (toString a.id) ∈
            (processAssignments ctx cs ids l).1) := by
  intro ctx cs ids l
  induction l generalizing ids with
  | nil =>
    intro _ _ _
    exact ⟨rfl, fun a ha => absurd ha (List.not_mem_nil a)⟩
  | cons a rest ih =>
    intro hel hnd hni
    obtain ⟨s, dt, hs, hne, hp, hw, hin⟩ := hel a (List.mem_cons_self a rest)
    have hnia : toString a.id ∉ ids := hni a (List.mem_cons_self a rest)
    simp only [List.map_cons, List.nodup_cons] at hnd
    have hneid : ∀ a' ∈ rest, toString a'.id ≠ toString a.id := by
      intro a' ha' he
      exact hnd.1 (he ▸ List.mem_map_of_mem (fun x => toString x.id) ha')
    cases hok : ctx.createOk (toString a.id) with
    | false =>
      have h1 := processAssignment_fail ctx cs ids a s dt hs hne hp hw hin
        hnia hok
      rw [processAssignments_cons_none h1]
      have hrest := ih ids
        (fun a' ha' => hel a' (List.mem_cons_of_mem a ha'))
        hnd.2
        (fun a' ha' => hni a' (List.mem_cons_of_mem a ha'))
      refine ⟨hrest.1, ?_⟩
      intro a' ha'
      rcases List.mem_cons.mp ha' with rfl | ha'
      · refine ⟨⟨buildRecord a' cs dt.utc (toString a'.id), ?_, rfl⟩, ?_, ?_⟩
        · exact List.mem_append_left _ (by simp)
        · intro ht
          rw [hok] at ht
          cases ht
        · intro _
          exact List.mem_append_left _ (by simp)
      · obtain ⟨⟨r, hr, hrc⟩, hsucc, hfail⟩ := hrest.2 a' ha'
        exact ⟨⟨r, List.mem_append_right _ hr, hrc⟩,
          fun h => List.mem_append_right _ (hsucc h),
          fun h => List.mem_append_right _ (hfail h)⟩
    | true =>
      have h1 := processAssignment_ok ctx cs ids a s dt hs hne hp hw hin
        hnia hok
      rw [processAssignments_cons_none h1]
      have hrest := ih (ids.insert (toString a.id))
        (fun a' ha' => hel a' (List.mem_cons_of_mem a ha'))
        hnd.2
        (fun a' ha' hmem => by
          rcases List.mem_insert_iff.mp hmem with h | h
          · exact hneid a' ha' h
          · exact hni a' (List.mem_cons_of_mem a ha') h)
      refine ⟨hrest.1, ?_⟩
      intro a' ha'
      rcases List.mem_cons.mp ha' with rfl | ha'
      · refine ⟨⟨buildRecord a' cs dt.utc (toString a'.id), ?_, rfl⟩, ?_, ?_⟩
        · exact List.mem_append_left _ (by simp)
        · intro _
          exact List.mem_append_left _ (by simp)
        · intro hf
          rw [hok] at hf
          cases hf
      · obtain ⟨⟨r, hr, hrc⟩, hsucc, hfail⟩ := hrest.2 a' ha'
        exact ⟨⟨r, List.mem_append_right _ hr, hrc⟩,
          fun h => List.mem_append_right _ (hsucc h),
          fun h => List.mem_append_right _ (hfail h)⟩

/-- Witness for C3 at a concrete input: three eligible assignments with
ids 7, 8, 9 and an oracle that fails exactly the second's create: the run
does not abort, all three create calls are issued, the first and third
are created and the second's failure is recorded. -/
theorem c3_failure_isolation_witness :
    (processAssignments ctxFail8 "Math" [] [aW, a8, a9]).2.2 = none ∧
    ∀ a ∈ [aW, a8, a9],
      (∃ r, Event.createCall r ∈
          (processAssignments ctxFail8 "Math" [] [aW, a8, a9]).1 ∧
        r.canvasId = toString a.id) ∧
      (ctxFail8.createOk (toString a.id) = true →
        Event.createSuccess (toString a.id) ∈
          (processAssignments ctxFail8 "Math" [] [aW, a8, a9]).1) ∧
      (ctxFail8.createOk (toString a.id) = false →
        Event.createFailure (toString a.id) ∈
          (processAssignments ctxFail8 "Math" [] [aW, a8, a9]).1) := by
  apply c3_failure_isolation
  · intro a ha
    simp only [List.mem_cons, List.not_mem_nil, or_false] at ha
    rcases ha with rfl | rfl | rfl <;>
      exact ⟨"2025-01-01T00:00:00Z", DT.mk 100 true, rfl, by decide,
        by decide, rfl, by decide⟩
  · decide
  · intro a ha
    simp

theorem addPageIds_cons (ids : List String) (p : NPage) (ps : List NPage) :
    addPageIds ids (p :: ps) =
      addPageIds
        (match extractCanvasId p with
          | some cid => ids.insert cid
          | none => ids) ps := rfl

theorem addPageIds_append (ids : List String) (l₁ l₂ : List NPage) :
    addPageIds ids (l₁ ++ l₂) = addPageIds (addPageIds ids l₁) l₂ := by
  simp [addPageIds, List.foldl_append]

theorem mem_addPageIds (results : List NPage) :
    ∀ (ids : List String) (x : String), x ∈ ids → x ∈ addPageIds ids results := by
  induction results with
  | nil => intro ids x h; exact h
  | cons p ps ih =>
    intro ids x h
    rw [addPageIds_cons]
    rcases he : extractCanvasId p with _ | cid
    · exact ih ids x h
    · exact ih _ x (List.mem_insert_iff.mpr (Or.inr h))

theorem addPageIds_complete (results : List NPage) :
    ∀ (ids : List String) (p : NPage) (cid : String), p ∈ results →
      extractCanvasId p = some cid → cid ∈ addPageIds ids results := by
  induction results with
  | nil => intro ids p cid hp _; cases hp
  | cons q qs ih =>
    intro ids p cid hp he
    rw [addPageIds_cons]
    rcases List.mem_cons.mp hp with rfl | hp'
    · rw [he]
      exact mem_addPageIds qs _ cid (List.mem_insert_self cid ids)
    · rcases hq : extractCanvasId q with _ | cid'
      · exact ih ids p cid hp' he
      · exact ih _ p cid hp' he

theorem nQueryCalls_step {len c : Nat} (h : c + 100 < len) :
    nQueryCalls len c = nQueryCalls len (c + 100) + 1 := by
  unfold nQueryCalls
  have h1 : (100 : Nat) ≤ len - c - 1 := by omega
  have h2 : len - c - 1 - 100 = len - (c + 100) - 1 := by omega
  rw [Nat.div_eq_sub_div (by norm_num) h1, h2]

theorem nQueryCalls_last {len c : Nat} (h : len ≤ c + 100) :
    nQueryCalls len c = 1 := by
  unfold nQueryCalls
  rw [Nat.div_eq_of_lt (by omega)]


theorem fetchLoop_queryStore (store : List NPage) :
    ∀ (fuel : Nat) (cur : Option Nat) (ids : List String),
      store.length < cur.getD 0 + 100 * fuel → 0 < fuel →
      fetchLoop (queryStore store) fuel cur ids =
        (List.replicate (nQueryCalls store.length (cur.getD 0))
            Event.queryNotion,
          FetchResult.ok (addPageIds ids (store.drop (cur.getD 0)))) := by
  intro fuel
  induction fuel with
  | zero =>
    intro cur ids _ h0
    exact absurd h0 (by omega)
  | succ n ih =>
    intro cur ids h _
    have hdd : (store.drop (cur.getD 0)).drop 100 =
        store.drop (cur.getD 0 + 100) := by
      rw [List.drop_drop]
    have hsplit2 : (store.drop (cur.getD 0)).take 100 ++
        store.drop (cur.getD 0 + 100) = store.drop (cur.getD 0) := by
      rw [← hdd]
      exact List.take_append_drop 100 (store.drop (cur.getD 0))
    have hsplit : addPageIds ids (store.drop (cur.getD 0)) =
        addPageIds (addPageIds ids ((store.drop (cur.getD 0)).take 100))
          (store.drop (cur.getD 0 + 100)) := by
      rw [← addPageIds_append, hsplit2]
    by_cases hm : cur.getD 0 + 100 < store.length
    · simp only [fetchLoop, queryStore, decide_eq_true_eq]
      rw [if_pos hm]
      rw [ih (some (cur.getD 0 + 100))
        (addPageIds ids ((store.drop (cur.getD 0)).take 100))
        (by simp only [Option.getD_some]; omega) (by omega)]
      simp only [Option.getD_some]
      rw [nQueryCalls_step hm, hsplit]
      simp [List.replicate_succ]
    · have hle : store.length ≤ cur.getD 0 + 100 := by omega
      simp only [fetchLoop, queryStore, decide_eq_true_eq]
      rw [if_neg hm]
      rw [nQueryCalls_last hle]
      have htake : (store.drop (cur.getD 0)).take 100 =
          store.drop (cur.getD 0) :=
        List.take_of_length_le (by rw [List.length_drop]; omega)
      rw [htake]
      rfl

/-- C4: the Existing-ID Loader pages through the query endpoint with page
size 100, following the cursor until the store reports no more pages.
Against a well-behaved store of `n` pages it makes `(n-1)/100 + 1` query
calls — 3 calls when `n = 250` — and returns every record's `"Canvas ID"`
first-text-run value (when present and non-empty); on an empty store it
makes one call and returns the empty set. -/
theorem c4_pagination :
    ∀ (store : List NPage) (fuel : Nat),
      store.length < 100 * fuel →
      fetch_existing_canvas_ids (queryStore store) fuel =
        (List.replicate ((store.length - 1) / 100 + 1) Event.queryNotion,
          FetchResult.ok (addPageIds [] store)) ∧
      (∀ p ∈ store, ∀ cid, extractCanvasId p = some cid →
        cid ∈ addPageIds [] store) ∧
      (store.length = 250 →
        (fetch_existing_canvas_ids (queryStore store) fuel).1.length = 3) ∧
      (store = [] →
        fetch_existing_canvas_ids (queryStore store) fuel =
          ([Event.queryNotion], FetchResult.ok [])) := by
  intro store fuel h
  have h0 : 0 < fuel := by
    rcases Nat.eq_zero_or_pos fuel with rfl | h0
    · omega
    · exact h0
  have hmain := fetchLoop_queryStore store fuel none []
    (by simp only [Option.getD_none]; omega) h0
  simp only [Option.getD_none, List.drop_zero] at hmain
  have hfe : fetch_existing_canvas_ids (queryStore store) fuel =
      (List.replicate (nQueryCalls store.length 0) Event.queryNotion,
        FetchResult.ok (addPageIds [] store)) := hmain
  have hq0 : nQueryCalls store.length 0 = (store.length - 1) / 100 + 1 := by
    unfold nQueryCalls
    rw [Nat.sub_zero]
  refine ⟨?_, ?_, ?_, ?_⟩
  · rw [hfe, hq0]
  · intro p hp cid he
    exact addPageIds_complete store [] p cid hp he
  · intro h250
    rw [hfe]
    simp only [List.length_replicate]
    rw [h250]
    decide
  · intro hnil
    subst hnil
    rw [hfe]
    rfl

set_option maxRecDepth 20000 in
/-- Witness for C4 at concrete inputs: over the 250-page `bigStore` the
loader makes exactly 3 query calls, and over the empty store it returns
the empty id set after one call. -/
theorem c4_pagination_witness :
    bigStore.length < 100 * 3 ∧
    (fetch_existing_canvas_ids (queryStore bigStore) 3).1.length = 3 ∧
    fetch_existing_canvas_ids (queryStore store0) 1 =
      ([Event.queryNotion], FetchResult.ok []) := by
  refine ⟨by decide, ?_, ?_⟩
  · exact (c4_pagination bigStore 3 (by decide)).2.2.1 (by decide)
  · exact (c4_pagination store0 1 (by decide)).2.2.2 rfl

theorem countSucc_append (l₁ l₂ : List Event) (x : String) :
    countSucc (l₁ ++ l₂) x = countSucc l₁ x + countSucc l₂ x :=
  List.countP_append _ l₁ l₂

theorem countCall_append (l₁ l₂ : List Event) (x : String) :
    countCall (l₁ ++ l₂) x = countCall l₁ x + countCall l₂ x :=
  List.countP_append _ l₁ l₂

theorem countSucc_pair_succ (rec : DestinationRecord) (cid x : String) :
    countSucc [Event.createCall rec, Event.createSuccess cid] x =
      if cid = x then 1 else 0 := by
  by_cases h : cid = x <;>
    simp [countSucc, List.countP_cons, h]

theorem countSucc_pair_fail (rec : DestinationRecord) (cid x : String) :
    countSucc [Event.createCall rec, Event.createFailure cid] x = 0 := by
  simp [countSucc, List.countP_cons]

theorem countCall_pair (rec : DestinationRecord) (e : Event) (x : String)
    (he : ∀ r : DestinationRecord, e ≠ Event.createCall r) :
    countCall [Event.createCall rec, e] x =
      if rec.canvasId = x then 1 else 0 := by
  have h2 : countCall [e] x = 0 := by
    cases e with
    | createCall r => exact absurd rfl (he r)
    | queryNotion => rfl
    | getCourses => rfl
    | getAssignments n => rfl
    | createSuccess c => rfl
    | createFailure c => rfl
  by_cases h : rec.canvasId = x <;>
    simp [countCall, List.countP_cons, h] <;>
    simp [countCall, List.countP_cons] at h2 <;>
    omega

theorem processAssignment_cases (ctx : SyncCtx) (cs : String)
    (ids : List String) (a : Assignment) :
    (∃ e, processAssignment ctx cs ids a = ([], ids, e)) ∨
    (∃ due, toString a.id ∉ ids ∧ ctx.createOk (toString a.id) = true ∧
      processAssignment ctx cs ids a =
        ([Event.createCall (buildRecord a cs due (toString a.id)),
          Event.createSuccess (toString a.id)],
          ids.insert (toString a.id), none)) ∨
    (∃ due, toString a.id ∉ ids ∧ ctx.createOk (toString a.id) = false ∧
      processAssignment ctx cs ids a =
        ([Event.createCall (buildRecord a cs due (toString a.id)),
          Event.createFailure (toString a.id)], ids, none)) := by
  rcases ha : a.due_at with _ | s
  · exact Or.inl ⟨none, by simp [processAssignment, ha]⟩
  · by_cases hne : s = ""
    · exact Or.inl ⟨none, by simp [processAssignment, ha, hne]⟩
    · rcases hp : ctx.parseIso (replaceZ s) with _ | dt
      · exact Or.inl ⟨some (RunErr.parseError (replaceZ s)),
          by simp [processAssignment, ha, hne, hp]⟩
      · cases hw : dt.aware with
        | false =>
          exact Or.inl ⟨some RunErr.compareTypeError,
            by simp [processAssignment, ha, hne, hp, hw]⟩
        | true =>
          cases hin : inWindow ctx.now dt.utc with
          | false =>
            refine Or.inl ⟨none, ?_⟩
            rw [processAssignment_parsed ctx cs ids a s dt ha hne hp hw, hin]
            simp
          | true =>
            by_cases hm : toString a.id ∈ ids
            · exact Or.inl ⟨none,
                processAssignment_dup ctx cs ids a s dt ha hne hp hw hin hm⟩
            · cases hok : ctx.createOk (toString a.id) with
              | true =>
                exact Or.inr (Or.inl ⟨dt.utc, hm, rfl,
                  processAssignment_ok ctx cs ids a s dt ha hne hp hw hin
                    hm hok⟩)
              | false =>
                exact Or.inr (Or.inr ⟨dt.utc, hm, rfl,
                  processAssignment_fail ctx cs ids a s dt ha hne hp hw hin
                    hm hok⟩)

theorem processAssignments_counts (ctx : SyncCtx) (cs : String)
    (l : List Assignment) :
    ∀ ids : List String,
      (∀ x, x ∈ ids → x ∈ (processAssignments ctx cs ids l).2.1) ∧
      (∀ x, x ∈ ids →
        countSucc (processAssignments ctx cs ids l).1 x = 0 ∧
        countCall (processAssignments ctx cs ids l).1 x = 0) ∧
      (∀ x, countSucc (processAssignments ctx cs ids l).1 x ≤ 1 ∧
        (1 ≤ countSucc (processAssignments ctx cs ids l).1 x →
          x ∈ (processAssignments ctx cs ids l).2.1)) ∧
      ((∀ s, ctx.createOk s = true) →
        ∀ x, countCall (processAssignments ctx cs ids l).1 x ≤ 1 ∧
          (1 ≤ countCall (processAssignments ctx cs ids l).1 x →
            x ∈ (processAssignments ctx cs ids l).2.1)) := by
  induction l with
  | nil =>
    intro ids
    refine ⟨fun x h => h, fun x _ => ⟨rfl, rfl⟩, fun x => ⟨?_, ?_⟩,
      fun _ x => ⟨?_, ?_⟩⟩
    · simp [processAssignments, countSucc]
    · intro h
      simp [processAssignments, countSucc] at h
    · simp [processAssignments, countCall]
    · intro h
      simp [processAssignments, countCall] at h
  | cons a rest ih =>
    intro ids
    rcases processAssignment_cases ctx cs ids a with
      ⟨e, h1⟩ | ⟨due, hnm, hok, h1⟩ | ⟨due, hnm, hok, h1⟩
    · cases e with
      | none =>
        rw [processAssignments_cons_none h1]
        obtain ⟨m1, m2, m3, m4⟩ := ih ids
        refine ⟨?_, ?_, ?_, ?_⟩
        · intro x hx
          simpa using m1 x hx
        · intro x hx
          simpa using m2 x hx
        · intro x
          simpa using m3 x
        · intro hall x
          simpa using m4 hall x
      | some e' =>
        rw [processAssignments_cons_some h1]
        refine ⟨fun x hx => hx, fun x _ => ⟨rfl, rfl⟩, fun x => ⟨?_, ?_⟩,
          fun _ x => ⟨?_, ?_⟩⟩
        · simp [countSucc]
        · intro h
          simp [countSucc] at h
        · simp [countCall]
        · intro h
          simp [countCall] at h
    · -- successful create of toString a.id
      rw [processAssignments_cons_none h1]
      obtain ⟨m1, m2, m3, m4⟩ := ih (ids.insert (toString a.id))
      have hcs : ∀ x,
          countSucc [Event.createCall (buildRecord a cs due (toString a.id)),
            Event.createSuccess (toString a.id)] x =
            if toString a.id = x then 1 else 0 :=
        fun x => countSucc_pair_succ _ _ x
      have hcc : ∀ x,
          countCall [Event.createCall (buildRecord a cs due (toString a.id)),
            Event.createSuccess (toString a.id)] x =
            if toString a.id = x then 1 else 0 :=
        fun x => countCall_pair _ _ x (fun r h => Event.noConfusion h)
      refine ⟨?_, ?_, ?_, ?_⟩
      · intro x hx
        simpa using m1 x (List.mem_insert_iff.mpr (Or.inr hx))
      · intro x hx
        have hne : ¬toString a.id = x := fun he => hnm (he ▸ hx)
        have hr := m2 x (List.mem_insert_iff.mpr (Or.inr hx))
        simp only [countSucc_append, countCall_append, hcs x, hcc x, if_neg hne]
        simpa [countSucc_append, countCall_append] using
          And.intro (by omega : (0:Nat) + countSucc
            (processAssignments ctx cs (ids.insert (toString a.id)) rest).1 x
              = countSucc (processAssignments ctx cs
                (ids.insert (toString a.id)) rest).1 x) hr
      · intro x
        by_cases hx : toString a.id = x
        · have hr := m2 x (List.mem_insert_iff.mpr (Or.inl hx.symm))
          constructor
          · simp only [countSucc_append, hcs x, if_pos hx]
            omega
          · intro _
            simpa using m1 x (List.mem_insert_iff.mpr (Or.inl hx.symm))
        · have hr := m3 x
          constructor
          · simp only [countSucc_append, hcs x, if_neg hx]
            have := hr.1
            simp only [countSucc_append] at this ⊢
            simpa using this
          · intro hge
            simp only [countSucc_append, hcs x, if_neg hx] at hge
            have := hr.2 (by simpa using hge)
            simpa using this
      · intro hall x
        by_cases hx : toString a.id = x
        · have hr := m2 x (List.mem_insert_iff.mpr (Or.inl hx.symm))
          constructor
          · simp only [countCall_append, hcc x, if_pos hx]
            omega
          · intro _
            simpa using m1 x (List.mem_insert_iff.mpr (Or.inl hx.symm))
        · have hr := m4 hall x
          constructor
          · simp only [countCall_append, hcc x, if_neg hx]
            have := hr.1
            simpa using this
          · intro hge
            simp only [countCall_append, hcc x, if_neg hx] at hge
            have := hr.2 (by simpa using hge)
            simpa using this
    · -- failed create of toString a.id
      rw [processAssignments_cons_none h1]
      obtain ⟨m1, m2, m3, m4⟩ := ih ids
      have hcs : ∀ x,
          countSucc [Event.createCall (buildRecord a cs due (toString a.id)),
            Event.createFailure (toString a.id)] x = 0 :=
        fun x => countSucc_pair_fail _ _ x
      have hcc : ∀ x,
          countCall [Event.createCall (buildRecord a cs due (toString a.id)),
            Event.createFailure (toString a.id)] x =
            if toString a.id = x then 1 else 0 :=
        fun x => countCall_pair _ _ x (fun r h => Event.noConfusion h)
      refine ⟨?_, ?_, ?_, ?_⟩
      · intro x hx
        simpa using m1 x hx
      · intro x hx
        have hne : ¬toString a.id = x := fun he => hnm (he ▸ hx)
        have hr := m2 x hx
        simp only [countSucc_append, countCall_append, hcs x, hcc x,
          if_neg hne]
        simpa using hr
      · intro x
        have hr := m3 x
        constructor
        · simp only [countSucc_append, hcs x]
          have := hr.1
          simpa using this
        · intro hge
          simp only [countSucc_append, hcs x] at hge
          have := hr.2 (by simpa using hge)
          simpa using this
      · intro hall x
        rw [hall (toString a.id)] at hok
        cases hok

theorem countSucc_cons_getAssignments (n : Nat) (l : List Event)
    (x : String) :
    countSucc (Event.getAssignments n :: l) x = countSucc l x := by
  simp [countSucc, List.countP_cons]

theorem countCall_cons_getAssignments (n : Nat) (l : List Event)
    (x : String) :
    countCall (Event.getAssignments n :: l) x = countCall l x := by
  simp [countCall, List.countP_cons]

theorem countSucc_cons_getCourses (l : List Event) (x : String) :
    countSucc (Event.getCourses :: l) x = countSucc l x := by
  simp [countSucc, List.countP_cons]

theorem countCall_cons_getCourses (l : List Event) (x : String) :
    countCall (Event.getCourses :: l) x = countCall l x := by
  simp [countCall, List.countP_cons]

theorem countSucc_queryNotion (l : List Event) (x : String)
    (h : ∀ e ∈ l, e = Event.queryNotion) : countSucc l x = 0 := by
  rw [countSucc, List.countP_eq_zero]
  intro e he
  rw [h e he]
  simp

theorem countCall_queryNotion (l : List Event) (x : String)
    (h : ∀ e ∈ l, e = Event.queryNotion) : countCall l x = 0 := by
  rw [countCall, List.countP_eq_zero]
  intro e he
  rw [h e he]
  simp

theorem processCourses_counts (ctx : SyncCtx) (inp : RunInput)
    (l : List Course) :
    ∀ ids : List String,
      (∀ x, x ∈ ids → x ∈ (processCourses ctx inp ids l).2.1) ∧
      (∀ x, x ∈ ids →
        countSucc (processCourses ctx inp ids l).1 x = 0 ∧
        countCall (processCourses ctx inp ids l).1 x = 0) ∧
      (∀ x, countSucc (processCourses ctx inp ids l).1 x ≤ 1 ∧
        (1 ≤ countSucc (processCourses ctx inp ids l).1 x →
          x ∈ (processCourses ctx inp ids l).2.1)) ∧
      ((∀ s, ctx.createOk s = true) →
        ∀ x, countCall (processCourses ctx inp ids l).1 x ≤ 1 ∧
          (1 ≤ countCall (processCourses ctx inp ids l).1 x →
            x ∈ (processCourses ctx inp ids l).2.1)) := by
  induction l with
  | nil =>
    intro ids
    refine ⟨fun x h => h, fun x _ => ⟨rfl, rfl⟩, fun x => ⟨?_, ?_⟩,
      fun _ x => ⟨?_, ?_⟩⟩
    · simp [processCourses, countSucc]
    · intro h
      simp [processCourses, countSucc] at h
    · simp [processCourses, countCall]
    · intro h
      simp [processCourses, countCall] at h
  | cons c rest ih =>
    intro ids
    rcases hlk : ctx.name_map.lookup c.name with _ | cs
    · have hpc : processCourse ctx inp ids c = ([], ids, none) := by
        simp [processCourse, hlk]
      rw [processCourses_cons_none hpc]
      obtain ⟨m1, m2, m3, m4⟩ := ih ids
      refine ⟨?_, ?_, ?_, ?_⟩
      · intro x hx
        simpa using m1 x hx
      · intro x hx
        simpa using m2 x hx
      · intro x
        simpa using m3 x
      · intro hall x
        simpa using m4 hall x
    · have hpc : processCourse ctx inp ids c =
          (Event.getAssignments c.id ::
            (processAssignments ctx cs ids (inp.assignmentsOf c.id)).1,
          (processAssignments ctx cs ids (inp.assignmentsOf c.id)).2.1,
          (processAssignments ctx cs ids (inp.assignmentsOf c.id)).2.2) := by
        simp [processCourse, hlk]
      obtain ⟨a1, a2, a3, a4⟩ :=
        processAssignments_counts ctx cs (inp.assignmentsOf c.id) ids
      rcases herr : (processAssignments ctx cs ids
          (inp.assignmentsOf c.id)).2.2 with _ | e
      · rw [herr] at hpc
        rw [processCourses_cons_none hpc]
        obtain ⟨m1, m2, m3, m4⟩ :=
          ih (processAssignments ctx cs ids (inp.assignmentsOf c.id)).2.1
        refine ⟨?_, ?_, ?_, ?_⟩
        · intro x hx
          simpa using m1 x (a1 x hx)
        · intro x hx
          have hA := a2 x hx
          have hr := m2 x (a1 x hx)
          simp only [countSucc_append, countCall_append,
            countSucc_cons_getAssignments, countCall_cons_getAssignments]
          constructor
          · omega
          · omega
        · intro x
          have hA := a3 x
          have hr := m3 x
          have hz := fun hm => (m2 x hm).1
          constructor
          · simp only [countSucc_append, countSucc_cons_getAssignments]
            by_cases h0 : 1 ≤ countSucc (processAssignments ctx cs ids
                (inp.assignmentsOf c.id)).1 x
            · have hxA := hA.2 h0
              have hr0 := hz hxA
              omega
            · omega
          · intro hge
            simp only [countSucc_append, countSucc_cons_getAssignments]
              at hge
            by_cases h0 : 1 ≤ countSucc (processCourses ctx inp
                (processAssignments ctx cs ids (inp.assignmentsOf c.id)).2.1
                rest).1 x
            · simpa using hr.2 h0
            · have h1 : 1 ≤ countSucc (processAssignments ctx cs ids
                  (inp.assignmentsOf c.id)).1 x := by omega
              simpa using m1 x (hA.2 h1)
        · intro hall x
          have hA := a4 hall x
          have hr := m4 hall x
          have hz := fun hm => (m2 x hm).2
          constructor
          · simp only [countCall_append, countCall_cons_getAssignments]
            by_cases h0 : 1 ≤ countCall (processAssignments ctx cs ids
                (inp.assignmentsOf c.id)).1 x
            · have hxA := hA.2 h0
              have hr0 := hz hxA
              omega
            · omega
          · intro hge
            simp only [countCall_append, countCall_cons_getAssignments]
              at hge
            by_cases h0 : 1 ≤ countCall (processCourses ctx inp
                (processAssignments ctx cs ids (inp.assignmentsOf c.id)).2.1
                rest).1 x
            · simpa using hr.2 h0
            · have h1 : 1 ≤ countCall (processAssignments ctx cs ids
                  (inp.assignmentsOf c.id)).1 x := by omega
              simpa using m1 x (hA.2 h1)
      · rw [herr] at hpc
        rw [processCourses_cons_some hpc]
        refine ⟨?_, ?_, ?_, ?_⟩
        · intro x hx
          exact a1 x hx
        · intro x hx
          have hA := a2 x hx
          simp only [countSucc_cons_getAssignments,
            countCall_cons_getAssignments]
          exact hA
        · intro x
          have hA := a3 x
          simp only [countSucc_cons_getAssignments]
          exact hA
        · intro hall x
          have hA := a4 hall x
          simp only [countCall_cons_getAssignments]
          exact hA

/-- C1: dedup within one run.  In every run, at most one record is
successfully created per external id (`countSucc ≤ 1` unconditionally);
when create calls succeed, at most one create call is issued per external
id even if the source yields the same assignment id twice; and at the
moment of each check, a create call is issued for id `X` only when `X` is
not in the in-memory set, while after a successful create `X` is in the
returned set. -/
theorem c1_dedup_per_run :
    ∀ (ctx : SyncCtx) (q : Option Nat → Except Unit QueryResp) (fuel : Nat)
      (inp : RunInput) (x : String),
      countSucc (runSync ctx q fuel inp).1 x ≤ 1 ∧
      ((∀ s, ctx.createOk s = true) →
        countCall (runSync ctx q fuel inp).1 x ≤ 1) ∧
      (∀ (cs : String) (ids ids' : List String) (a : Assignment)
          (evs : List Event) (err : Option RunErr),
        processAssignment ctx cs ids a = (evs, ids', err) →
        (∀ r, Event.createCall r ∈ evs → r.canvasId ∉ ids) ∧
        (Event.createSuccess x ∈ evs → x ∈ ids')) := by
  intro ctx q fuel inp x
  have hrun : countSucc (runSync ctx q fuel inp).1 x ≤ 1 ∧
      ((∀ s, ctx.createOk s = true) →
        countCall (runSync ctx q fuel inp).1 x ≤ 1) := by
    rcases hf : fetch_existing_canvas_ids q fuel with ⟨qEvents, fr⟩
    have hq : ∀ e ∈ qEvents, e = Event.queryNotion := by
      intro e he
      have h1 : (fetchLoop q fuel none []).1 = qEvents := by
        have h2 : fetchLoop q fuel none [] = (qEvents, fr) := hf
        rw [h2]
      exact fetchLoop_events q fuel none [] e (by rw [h1]; exact he)
    cases fr with
    | fuelOut =>
      have hrs : runSync ctx q fuel inp =
          (qEvents, some RunErr.fuelExhausted) := by
        simp [runSync, hf]
      rw [hrs]
      constructor
      · rw [countSucc_queryNotion qEvents x hq]
        omega
      · intro _
        rw [countCall_queryNotion qEvents x hq]
        omega
    | err =>
      have hrs : runSync ctx q fuel inp =
          (qEvents, some RunErr.queryFailed) := by
        simp [runSync, hf]
      rw [hrs]
      constructor
      · rw [countSucc_queryNotion qEvents x hq]
        omega
      · intro _
        rw [countCall_queryNotion qEvents x hq]
        omega
    | ok ids =>
      have hrs : runSync ctx q fuel inp =
          (qEvents ++ Event.getCourses ::
              (processCourses ctx inp ids inp.courses).1,
            (processCourses ctx inp ids inp.courses).2.2) := by
        simp [runSync, hf]
      rw [hrs]
      obtain ⟨m1, m2, m3, m4⟩ := processCourses_counts ctx inp inp.courses ids
      constructor
      · have h1 : countSucc (qEvents ++ Event.getCourses ::
            (processCourses ctx inp ids inp.courses).1) x =
            countSucc (processCourses ctx inp ids inp.courses).1 x := by
          rw [countSucc_append, countSucc_queryNotion qEvents x hq,
            countSucc_cons_getCourses]
          omega
        rw [h1]
        exact (m3 x).1
      · intro hall
        have h1 : countCall (qEvents ++ Event.getCourses ::
            (processCourses ctx inp ids inp.courses).1) x =
            countCall (processCourses ctx inp ids inp.courses).1 x := by
          rw [countCall_append, countCall_queryNotion qEvents x hq,
            countCall_cons_getCourses]
          omega
        rw [h1]
        exact (m4 hall x).1
  refine ⟨hrun.1, hrun.2, ?_⟩
  intro cs ids ids' a evs err h
  rcases processAssignment_cases ctx cs ids a with
    ⟨e, hc⟩ | ⟨due, hnm, hok, hc⟩ | ⟨due, hnm, hok, hc⟩
  · rw [hc] at h
    injection h with h1 h2
    injection h2 with h2 h3
    subst h1
    subst h2
    constructor
    · intro r hr
      simp at hr
    · intro hs
      simp at hs
  · rw [hc] at h
    injection h with h1 h2
    injection h2 with h2 h3
    subst h1
    subst h2
    constructor
    · intro r hr
      simp only [List.mem_cons, List.not_mem_nil, or_false] at hr
      rcases hr with hr | hr
      · injection hr with hr
        subst hr
        simpa [buildRecord] using hnm
      · cases hr
    · intro hs
      simp only [List.mem_cons, List.not_mem_nil, or_false] at hs
      rcases hs with hs | hs
      · cases hs
      · injection hs with hs
        subst hs
        exact List.mem_insert_self _ ids
  · rw [hc] at h
    injection h with h1 h2
    injection h2 with h2 h3
    subst h1
    subst h2
    constructor
    · intro r hr
      simp only [List.mem_cons, List.not_mem_nil, or_false] at hr
      rcases hr with hr | hr
      · injection hr with hr
        subst hr
        simpa [buildRecord] using hnm
      · cases hr
    · intro hs
      simp only [List.mem_cons, List.not_mem_nil, or_false] at hs
      rcases hs with hs | hs
      · cases hs
      · cases hs

/-- Witness for C1 at a concrete input: in the run whose course yields the
same assignment `aW` twice with all creates succeeding, id `"7"` is
created at most once and called at most once; and at the concrete check,
`"7"` lands in the returned set after its successful create. -/
theorem c1_dedup_per_run_witness :
    countSucc (runSync ctxW (queryStore store0) 2 inpDup).1 "7" ≤ 1 ∧
    countCall (runSync ctxW (queryStore store0) 2 inpDup).1 "7" ≤ 1 ∧
    ("7" : String) ∈ ["7"] := by
  have h := c1_dedup_per_run ctxW (queryStore store0) 2 inpDup "7"
  refine ⟨h.1, h.2.1 (fun s => rfl), ?_⟩
  exact (h.2.2 "Math" [] ["7"] aW
    [Event.createCall (buildRecord aW "Math" 100 "7"),
      Event.createSuccess "7"] none (by decide)).2 (by decide)

theorem syncDecision_dup {ctx : SyncCtx} {cs : String} {ids : List String}
    {a : Assignment} {due : Int} (h : toString a.id ∈ ids) :
    syncDecision ctx cs ids a due = ([], ids, none) := by
  simp [syncDecision, h]

theorem syncDecision_ok {ctx : SyncCtx} {cs : String} {ids : List String}
    {a : Assignment} {due : Int} (h : toString a.id ∉ ids)
    (hok : ctx.createOk (toString a.id) = true) :
    syncDecision ctx cs ids a due =
      ([Event.createCall (buildRecord a cs due (toString a.id)),
        Event.createSuccess (toString a.id)],
        ids.insert (toString a.id), none) := by
  simp [syncDecision, h, hok]

theorem processAssignment_shape (ctx : SyncCtx) (cs : String)
    (a : Assignment) :
    (∃ e, ∀ ids : List String,
      processAssignment ctx cs ids a = ([], ids, e)) ∨
    (∃ due, ∀ ids : List String,
      processAssignment ctx cs ids a = syncDecision ctx cs ids a due) := by
  rcases ha : a.due_at with _ | s
  · exact Or.inl ⟨none, fun ids => by simp [processAssignment, ha]⟩
  · by_cases hne : s = ""
    · exact Or.inl ⟨none, fun ids => by simp [processAssignment, ha, hne]⟩
    · rcases hp : ctx.parseIso (replaceZ s) with _ | dt
      · exact Or.inl ⟨some (RunErr.parseError (replaceZ s)),
          fun ids => by simp [processAssignment, ha, hne, hp]⟩
      · cases hw : dt.aware with
        | false =>
          exact Or.inl ⟨some RunErr.compareTypeError,
            fun ids => by simp [processAssignment, ha, hne, hp, hw]⟩
        | true =>
          cases hin : inWindow ctx.now dt.utc with
          | false =>
            refine Or.inl ⟨none, fun ids => ?_⟩
            rw [processAssignment_parsed ctx cs ids a s dt ha hne hp hw, hin]
            simp
          | true =>
            refine Or.inr ⟨dt.utc, fun ids => ?_⟩
            rw [processAssignment_parsed ctx cs ids a s dt ha hne hp hw, hin]
            simp

theorem countSucc_cons_createCall (rec : DestinationRecord) (l : List Event)
    (x : String) :
    countSucc (Event.createCall rec :: l) x = countSucc l x := by
  simp [countSucc, List.countP_cons]

theorem countSucc_cons_createSuccess (cid : String) (l : List Event)
    (x : String) :
    countSucc (Event.createSuccess cid :: l) x =
      countSucc l x + (if cid = x then 1 else 0) := by
  by_cases h : cid = x <;> simp [countSucc, List.countP_cons, h]

theorem processAssignments_sim (ctx : SyncCtx) (cs : String)
    (hall : ∀ s, ctx.createOk s = true) :
    ∀ (l : List Assignment) (ids₁ ids₂ : List String),
      (∀ x, x ∈ ids₁ → x ∈ ids₂) →
      (∀ x, 1 ≤ countSucc (processAssignments ctx cs ids₁ l).1 x →
        x ∈ ids₂) →
      (∀ r, Event.createCall r ∉ (processAssignments ctx cs ids₂ l).1) ∧
      (processAssignments ctx cs ids₂ l).2.1 = ids₂ ∧
      (∀ x, x ∈ (processAssignments ctx cs ids₁ l).2.1 → x ∈ ids₂) ∧
      (processAssignments ctx cs ids₂ l).2.2 =
        (processAssignments ctx cs ids₁ l).2.2 := by
  intro l
  induction l with
  | nil =>
    intro ids₁ ids₂ hsub _
    exact ⟨fun r hr => by simp [processAssignments] at hr, rfl, hsub, rfl⟩
  | cons a rest ih =>
    intro ids₁ ids₂ hsub hsucc
    rcases processAssignment_shape ctx cs a with ⟨e, hsh⟩ | ⟨due, hsh⟩
    · cases e with
      | none =>
        rw [processAssignments_cons_none (hsh ids₁),
          processAssignments_cons_none (hsh ids₂)]
        have hsucc' : ∀ x,
            1 ≤ countSucc (processAssignments ctx cs ids₁ rest).1 x →
            x ∈ ids₂ := by
          intro x hx
          apply hsucc x
          rw [processAssignments_cons_none (hsh ids₁)]
          simpa using hx
        obtain ⟨s1, s2, s3, s4⟩ := ih ids₁ ids₂ hsub hsucc'
        exact ⟨fun r hr => s1 r (by simpa using hr), by simpa using s2,
          fun x hx => s3 x (by simpa using hx), by simpa using s4⟩
      | some e' =>
        rw [processAssignments_cons_some (hsh ids₁),
          processAssignments_cons_some (hsh ids₂)]
        exact ⟨fun r hr => by simp at hr, rfl, hsub, rfl⟩
    · by_cases h1 : toString a.id ∈ ids₁
      · have h2 : toString a.id ∈ ids₂ := hsub _ h1
        have e1 : processAssignment ctx cs ids₁ a = ([], ids₁, none) := by
          rw [hsh ids₁, syncDecision_dup h1]
        have e2 : processAssignment ctx cs ids₂ a = ([], ids₂, none) := by
          rw [hsh ids₂, syncDecision_dup h2]
        rw [processAssignments_cons_none e1, processAssignments_cons_none e2]
        have hsucc' : ∀ x,
            1 ≤ countSucc (processAssignments ctx cs ids₁ rest).1 x →
            x ∈ ids₂ := by
          intro x hx
          apply hsucc x
          rw [processAssignments_cons_none e1]
          simpa using hx
        obtain ⟨s1, s2, s3, s4⟩ := ih ids₁ ids₂ hsub hsucc'
        exact ⟨fun r hr => s1 r (by simpa using hr), by simpa using s2,
          fun x hx => s3 x (by simpa using hx), by simpa using s4⟩
      · have hok := hall (toString a.id)
        have e1 : processAssignment ctx cs ids₁ a =
            ([Event.createCall (buildRecord a cs due (toString a.id)),
              Event.createSuccess (toString a.id)],
              ids₁.insert (toString a.id), none) := by
          rw [hsh ids₁, syncDecision_ok h1 hok]
        have hidin : toString a.id ∈ ids₂ := by
          apply hsucc (toString a.id)
          rw [processAssignments_cons_none e1]
          show 1 ≤ countSucc
            (Event.createCall (buildRecord a cs due (toString a.id)) ::
              Event.createSuccess (toString a.id) ::
              (processAssignments ctx cs (ids₁.insert (toString a.id))
                rest).1) (toString a.id)
          rw [countSucc_cons_createCall, countSucc_cons_createSuccess,
            if_pos rfl]
          omega
        have e2 : processAssignment ctx cs ids₂ a = ([], ids₂, none) := by
          rw [hsh ids₂, syncDecision_dup hidin]
        rw [processAssignments_cons_none e1, processAssignments_cons_none e2]
        have hsub' : ∀ x, x ∈ ids₁.insert (toString a.id) → x ∈ ids₂ := by
          intro x hx
          rcases List.mem_insert_iff.mp hx with rfl | hx
          · exact hidin
          · exact hsub x hx
        have hsucc' : ∀ x, 1 ≤ countSucc (processAssignments ctx cs
            (ids₁.insert (toString a.id)) rest).1 x → x ∈ ids₂ := by
          intro x hx
          apply hsucc x
          rw [processAssignments_cons_none e1]
          show 1 ≤ countSucc
            (Event.createCall (buildRecord a cs due (toString a.id)) ::
              Event.createSuccess (toString a.id) ::
              (processAssignments ctx cs (ids₁.insert (toString a.id))
                rest).1) x
          rw [countSucc_cons_createCall, countSucc_cons_createSuccess]
          exact le_trans hx (Nat.le_add_right _ _)
        obtain ⟨s1, s2, s3, s4⟩ :=
          ih (ids₁.insert (toString a.id)) ids₂ hsub' hsucc'
        exact ⟨fun r hr => s1 r (by simpa using hr), by simpa using s2,
          fun x hx => s3 x (by simpa using hx), by simpa using s4⟩

theorem processCourses_sim (ctx : SyncCtx) (inp : RunInput)
    (hall : ∀ s, ctx.createOk s = true) :
    ∀ (l : List Course) (ids₁ ids₂ : List String),
      (∀ x, x ∈ ids₁ → x ∈ ids₂) →
      (∀ x, 1 ≤ countSucc (processCourses ctx inp ids₁ l).1 x → x ∈ ids₂) →
      (∀ r, Event.createCall r ∉ (processCourses ctx inp ids₂ l).1) ∧
      (processCourses ctx inp ids₂ l).2.1 = ids₂ ∧
      (∀ x, x ∈ (processCourses ctx inp ids₁ l).2.1 → x ∈ ids₂) ∧
      (processCourses ctx inp ids₂ l).2.2 =
        (processCourses ctx inp ids₁ l).2.2 := by
  intro l
  induction l with
  | nil =>
    intro ids₁ ids₂ hsub _
    exact ⟨fun r hr => by simp [processCourses] at hr, rfl, hsub, rfl⟩
  | cons c rest ih =>
    intro ids₁ ids₂ hsub hsucc
    rcases hlk : ctx.name_map.lookup c.name with _ | cs
    · have e1 : processCourse ctx inp ids₁ c = ([], ids₁, none) := by
        simp [processCourse, hlk]
      have e2 : processCourse ctx inp ids₂ c = ([], ids₂, none) := by
        simp [processCourse, hlk]
      rw [processCourses_cons_none e1, processCourses_cons_none e2]
      have hsucc' : ∀ x,
          1 ≤ countSucc (processCourses ctx inp ids₁ rest).1 x →
          x ∈ ids₂ := by
        intro x hx
        apply hsucc x
        rw [processCourses_cons_none e1]
        simpa using hx
      obtain ⟨s1, s2, s3, s4⟩ := ih ids₁ ids₂ hsub hsucc'
      exact ⟨fun r hr => s1 r (by simpa using hr), by simpa using s2,
        fun x hx => s3 x (by simpa using hx), by simpa using s4⟩
    · have hpc1 : processCourse ctx inp ids₁ c =
          (Event.getAssignments c.id ::
            (processAssignments ctx cs ids₁ (inp.assignmentsOf c.id)).1,
          (processAssignments ctx cs ids₁ (inp.assignmentsOf c.id)).2.1,
          (processAssignments ctx cs ids₁ (inp.assignmentsOf c.id)).2.2) := by
        simp [processCourse, hlk]
      have hpc2 : processCourse ctx inp ids₂ c =
          (Event.getAssignments c.id ::
            (processAssignments ctx cs ids₂ (inp.assignmentsOf c.id)).1,
          (processAssignments ctx cs ids₂ (inp.assignmentsOf c.id)).2.1,
          (processAssignments ctx cs ids₂ (inp.assignmentsOf c.id)).2.2) := by
        simp [processCourse, hlk]
      have hsuccA : ∀ x, 1 ≤ countSucc (processAssignments ctx cs ids₁
          (inp.assignmentsOf c.id)).1 x → x ∈ ids₂ := by
        intro x hx
        apply hsucc x
        rcases herr : (processAssignments ctx cs ids₁
            (inp.assignmentsOf c.id)).2.2 with _ | e
        · rw [herr] at hpc1
          rw [processCourses_cons_none hpc1]
          show 1 ≤ countSucc ((Event.getAssignments c.id ::
            (processAssignments ctx cs ids₁ (inp.assignmentsOf c.id)).1) ++
            (processCourses ctx inp (processAssignments ctx cs ids₁
              (inp.assignmentsOf c.id)).2.1 rest).1) x
          rw [countSucc_append, countSucc_cons_getAssignments]
          exact le_trans hx (Nat.le_add_right _ _)
        · rw [herr] at hpc1
          rw [processCourses_cons_some hpc1]
          show 1 ≤ countSucc (Event.getAssignments c.id ::
            (processAssignments ctx cs ids₁ (inp.assignmentsOf c.id)).1) x
          rw [countSucc_cons_getAssignments]
          exact hx
      obtain ⟨s1A, s2A, s3A, s4A⟩ := processAssignments_sim ctx cs hall
        (inp.assignmentsOf c.id) ids₁ ids₂ hsub hsuccA
      rcases herr : (processAssignments ctx cs ids₁
          (inp.assignmentsOf c.id)).2.2 with _ | e
      · have herr2 : (processAssignments ctx cs ids₂
            (inp.assignmentsOf c.id)).2.2 = none := by rw [s4A, herr]
        rw [herr] at hpc1
        rw [herr2, s2A] at hpc2
        rw [processCourses_cons_none hpc1, processCourses_cons_none hpc2]
        have hsucc' : ∀ x, 1 ≤ countSucc (processCourses ctx inp
            (processAssignments ctx cs ids₁
              (inp.assignmentsOf c.id)).2.1 rest).1 x → x ∈ ids₂ := by
          intro x hx
          apply hsucc x
          rw [processCourses_cons_none hpc1]
          show 1 ≤ countSucc ((Event.getAssignments c.id ::
            (processAssignments ctx cs ids₁ (inp.assignmentsOf c.id)).1) ++
            (processCourses ctx inp (processAssignments ctx cs ids₁
              (inp.assignmentsOf c.id)).2.1 rest).1) x
          rw [countSucc_append, countSucc_cons_getAssignments]
          exact le_trans hx (Nat.le_add_left _ _)
        obtain ⟨s1, s2, s3, s4⟩ := ih (processAssignments ctx cs ids₁
          (inp.assignmentsOf c.id)).2.1 ids₂ s3A hsucc'
        refine ⟨?_, by simpa using s2, fun x hx => s3 x (by simpa using hx),
          by simpa using s4⟩
        intro r hr
        simp only [List.cons_append, List.mem_cons, List.mem_append] at hr
        rcases hr with hr | hr | hr
        · cases hr
        · exact s1A r hr
        · exact s1 r hr
      · have herr2 : (processAssignments ctx cs ids₂
            (inp.assignmentsOf c.id)).2.2 = some e := by rw [s4A, herr]
        rw [herr] at hpc1
        rw [herr2, s2A] at hpc2
        rw [processCourses_cons_some hpc1, processCourses_cons_some hpc2]
        refine ⟨?_, rfl, fun x hx => s3A x hx, rfl⟩
        intro r hr
        simp only [List.mem_cons] at hr
        rcases hr with hr | hr
        · cases hr
        · exact s1A r hr

/-- Counterexample to C5 as stated.  Two concrete scenarios in which every
id created in the first run is (vacuously) present in the second run's
baseline and the source is unchanged, yet the second run issues a create
call: (a) the create call fails in both runs (`ctxFailAll`; the first run
creates nothing, and the identical second run issues the create call
again); (b) the first run's baseline already contains the id (`store7`),
so the first run creates nothing, while the second run's loaded baseline
is empty (`store0`) and it issues a create call. -/
theorem c5_counterexample :
    ((∀ x, countSucc (runSync ctxFailAll (queryStore store0) 1 inpW).1 x
        = 0) ∧
      ∃ r, Event.createCall r ∈
        (runSync ctxFailAll (queryStore store0) 1 inpW).1) ∧
    ((∀ x, countSucc (runSync ctxW (queryStore store7) 1 inpW).1 x = 0) ∧
      ∃ r, Event.createCall r ∈
        (runSync ctxW (queryStore store0) 1 inpW).1) := by
  refine ⟨⟨fun x => rfl, ⟨buildRecord aW "Math" 100 "7", by decide⟩⟩,
    ⟨fun x => rfl, ⟨buildRecord aW "Math" 100 "7", by decide⟩⟩⟩

/-- C5 (amended): idempotence across runs.  If every create call in the
first run succeeds, and the second run's loaded baseline contains both the
first run's baseline and every id successfully created in the first run,
then a second run over the same courses and assignments issues zero create
calls (every eligible assignment is skipped as a duplicate). -/
theorem c5_idempotence_across_runs :
    ∀ (ctx : SyncCtx) (q₁ q₂ : Option Nat → Except Unit QueryResp)
      (fuel₁ fuel₂ : Nat) (inp : RunInput) (evs₁ evs₂ : List Event)
      (ids₁ ids₂ : List String),
      (∀ s, ctx.createOk s = true) →
      fetch_existing_canvas_ids q₁ fuel₁ = (evs₁, FetchResult.ok ids₁) →
      fetch_existing_canvas_ids q₂ fuel₂ = (evs₂, FetchResult.ok ids₂) →
      (∀ x, x ∈ ids₁ → x ∈ ids₂) →
      (∀ x, 1 ≤ countSucc (runSync ctx q₁ fuel₁ inp).1 x → x ∈ ids₂) →
      ∀ r, Event.createCall r ∉ (runSync ctx q₂ fuel₂ inp).1 := by
  intro ctx q₁ q₂ fuel₁ fuel₂ inp evs₁ evs₂ ids₁ ids₂ hall hf1 hf2 hsub hsucc
  have hrs1 : runSync ctx q₁ fuel₁ inp =
      (evs₁ ++ Event.getCourses ::
          (processCourses ctx inp ids₁ inp.courses).1,
        (processCourses ctx inp ids₁ inp.courses).2.2) := by
    simp [runSync, hf1]
  have hrs2 : runSync ctx q₂ fuel₂ inp =
      (evs₂ ++ Event.getCourses ::
          (processCourses ctx inp ids₂ inp.courses).1,
        (processCourses ctx inp ids₂ inp.courses).2.2) := by
    simp [runSync, hf2]
  have hq1 : ∀ e ∈ evs₁, e = Event.queryNotion := by
    intro e he
    have h1 : (fetchLoop q₁ fuel₁ none []).1 = evs₁ := by
      have h2 : fetchLoop q₁ fuel₁ none [] = (evs₁, FetchResult.ok ids₁) :=
        hf1
      rw [h2]
    exact fetchLoop_events q₁ fuel₁ none [] e (by rw [h1]; exact he)
  have hq2 : ∀ e ∈ evs₂, e = Event.queryNotion := by
    intro e he
    have h1 : (fetchLoop q₂ fuel₂ none []).1 = evs₂ := by
      have h2 : fetchLoop q₂ fuel₂ none [] = (evs₂, FetchResult.ok ids₂) :=
        hf2
      rw [h2]
    exact fetchLoop_events q₂ fuel₂ none [] e (by rw [h1]; exact he)
  have hsucc' : ∀ x,
      1 ≤ countSucc (processCourses ctx inp ids₁ inp.courses).1 x →
      x ∈ ids₂ := by
    intro x hx
    apply hsucc x
    rw [hrs1]
    show 1 ≤ countSucc (evs₁ ++ Event.getCourses ::
      (processCourses ctx inp ids₁ inp.courses).1) x
    rw [countSucc_append, countSucc_queryNotion evs₁ x hq1,
      countSucc_cons_getCourses]
    omega
  obtain ⟨s1, s2, s3, s4⟩ := processCourses_sim ctx inp hall inp.courses
    ids₁ ids₂ hsub hsucc'
  intro r hr
  rw [hrs2] at hr
  simp only [List.mem_append, List.mem_cons] at hr
  rcases hr with hr | hr | hr
  · exact Event.noConfusion (hq2 _ hr)
  · exact Event.noConfusion hr
  · exact s1 r hr

/-- Witness for the amended C5 at a concrete input: both runs load the
baseline `["7"]` from `store7`; the first run creates nothing (its one
eligible assignment is already synced), and the second run does not issue
the create call it would otherwise make for `aW`. -/
theorem c5_idempotence_across_runs_witness :
    Event.createCall (buildRecord aW "Math" 100 "7") ∉
      (runSync ctxW (queryStore store7) 1 inpW).1 :=
  c5_idempotence_across_runs ctxW (queryStore store7) (queryStore store7)
    1 1 inpW [Event.queryNotion] [Event.queryNotion] ["7"] ["7"]
    (fun s => rfl) rfl rfl (fun x h => h)
    (fun x h => by
      have h0 : countSucc (runSync ctxW (queryStore store7) 1 inpW).1 x = 0 :=
        rfl
      omega)
    (buildRecord aW "Math" 100 "7")
